import Mathlib

/-!
# Verification of the `launch_sentiment` hourly pageviews pipeline

This file is a shallow embedding of the four pipeline stages of the
repository (`fetch_data`, `extract_data`, `transform_data`, `load_data`)
together with proofs of the specified properties.

Modelling conventions:

* Python strings are Lean `String`s; `str.split()` (no argument) and
  Python `int()` parsing are reimplemented faithfully below.
* The local filesystem is a partial map `FS := String → Option FData`.
  Files are typed by the stage that produces them (`text` for the plain
  dumps, `table` for CSV artifacts at record granularity, `gz` for the
  compressed dump).  The Python `csv` and `gzip` standard-library modules
  are external collaborators: the embedding works at the record/line
  granularity that the repository code itself uses, so a CSV file is a
  list of records (each a list of cell strings) and a gzip file carries
  the line stream its decompression yields.
* The network (`requests`) and decompression are oracles supplied as
  arguments (`Net`, `GzData`): they deliver either the full content, a
  prefix followed by an error, or an immediate error.
* The Postgres table is a list of `(company_name, pageviews,
  hour_timestamp)` rows; `timestamptz` values are modelled by their
  source strings with string equality, and the wall-clock `created_at`
  column is outside the model.  The whole transaction either commits (new
  table state) or rolls back (state unchanged).
-/

/-! ## Python string primitives -/

/-- The whitespace characters recognised by Python `str.split()` with no
argument (space, tab, newline, carriage return, vertical tab, form feed). -/
def pyIsSpace (c : Char) : Bool :=
  c = ' ' || c = '\t' || c = '\n' || c = '\r' || c = '\x0b' || c = '\x0c'

/-- Helper for `pySplit`: walk the characters, accumulating the current
token in reverse. -/
def pySplitAux : List Char → List Char → List String
  | [], acc => if acc.isEmpty then [] else [⟨acc.reverse⟩]
  | c :: cs, acc =>
      if pyIsSpace c then
        if acc.isEmpty then pySplitAux cs []
        else ⟨acc.reverse⟩ :: pySplitAux cs []
      else pySplitAux cs (c :: acc)

/-- Python `str.split()` with no argument: split on runs of whitespace,
discarding empty tokens. -/
def pySplit (s : String) : List String := pySplitAux s.toList []

/-- Helper for `pyLines`. -/
def splitLinesAux : List Char → List Char → List String
  | [], acc => [⟨acc.reverse⟩]
  | c :: cs, acc =>
      if c = '\n' then ⟨acc.reverse⟩ :: splitLinesAux cs []
      else splitLinesAux cs (c :: acc)

/-- Iterating a text file line by line (`for line in stream`), modulo the
kept/stripped line terminator, which every consumer in the repository
immediately discards via `split()`. -/
def pyLines (s : String) : List String := splitLinesAux s.toList []

/-! ## Python `int()` parsing and `str()` rendering -/

/-- Decimal digit value of a character, `none` for non-digits. -/
def digitVal? (c : Char) : Option Nat :=
  if '0' ≤ c ∧ c ≤ '9' then some (c.toNat - 48) else none

/-- Parse the remaining characters of a decimal literal, allowing single
underscores between digits (Python's `int()` digit grammar). -/
def parseDigitsAux : Nat → List Char → Option Nat
  | acc, [] => some acc
  | acc, c :: rest =>
      if c = '_' then
        match rest with
        | [] => none
        | d :: rest2 =>
            match digitVal? d with
            | some v => parseDigitsAux (10 * acc + v) rest2
            | none => none
      else
        match digitVal? c with
        | some v => parseDigitsAux (10 * acc + v) rest
        | none => none

/-- Parse a nonempty decimal digit string (first character must be a
digit, not an underscore). -/
def parseDigits : List Char → Option Nat
  | [] => none
  | c :: rest =>
      if c = '_' then none
      else
        match digitVal? c with
        | some d => parseDigitsAux d rest
        | none => none

/-- Python `int(s)` on a decimal string: optional surrounding whitespace,
optional sign, then digits (with `_` separators).  Returns `none` where
Python raises `ValueError`. -/
def pyInt? (s : String) : Option Int :=
  let cs := ((s.toList.dropWhile pyIsSpace).reverse.dropWhile pyIsSpace).reverse
  match cs with
  | [] => none
  | c :: rest =>
      if c = '-' then (parseDigits rest).map (fun n => -(Int.ofNat n))
      else if c = '+' then (parseDigits rest).map Int.ofNat
      else (parseDigits cs).map Int.ofNat

/-- The decimal digit character for `n < 10`. -/
def digitChar10 : Nat → Char
  | 0 => '0' | 1 => '1' | 2 => '2' | 3 => '3' | 4 => '4'
  | 5 => '5' | 6 => '6' | 7 => '7' | 8 => '8' | _ => '9'

/-- Decimal digits, least significant first, with explicit fuel so that
the kernel can evaluate the definition. -/
def natDigitsRevAux : Nat → Nat → List Char
  | 0, n => [digitChar10 (n % 10)]
  | fuel + 1, n =>
      if n < 10 then [digitChar10 n]
      else digitChar10 (n % 10) :: natDigitsRevAux fuel (n / 10)

/-- Decimal digits of a natural number, least significant first. -/
def natDigitsRev (n : Nat) : List Char := natDigitsRevAux n n

/-- Decimal digits of a natural number, most significant first. -/
def natDigits (n : Nat) : List Char := (natDigitsRev n).reverse

/-- Python `str()` of an integer: minus sign for negatives, then the
decimal digits. -/
def pyStr (i : Int) : String :=
  if i < 0 then "-" ++ ⟨natDigits (-i).toNat⟩ else ⟨natDigits i.toNat⟩

/-- Value of a least-significant-first digit list (used to prove the
`int(str(n)) = n` round-trip). -/
def valRev : List Char → Nat
  | [] => 0
  | c :: cs => (digitVal? c).getD 0 + 10 * valRev cs

/-! ## Errors, filesystem model -/

/-- The Python exceptions the pipeline stages can raise. -/
inductive PyErr where
  | fileNotFound   -- FileNotFoundError
  | valueError     -- ValueError
  | typeError      -- TypeError (int(None))
  | keyError       -- KeyError (DictReader row missing a field name)
  | requestError   -- requests.RequestException / HTTPError
  | badGzip        -- gzip.BadGzipFile / EOFError on a corrupt archive
  | dbError        -- psycopg2.Error (constraint violation and the like)
deriving DecidableEq, Repr

/-- Content of a gzip file: either a well-formed archive that decompresses
to a list of lines, or a truncated/corrupt one that yields a prefix of
lines and then raises mid-stream. -/
inductive GzData where
  | ok (lines : List String)
  | truncated (lines : List String)
deriving DecidableEq, Repr

/-- File contents, typed by producer: plain text, a CSV artifact at record
granularity (the `csv` module is the transport), or a gzip archive. -/
inductive FData where
  | text (s : String)
  | table (rows : List (List String))
  | gz (g : GzData)
deriving DecidableEq, Repr

/-- The local filesystem: a partial map from paths to file contents.
Directories are implicit (`mkdir(parents=True, exist_ok=True)` is a
no-op of the model). -/
def FS : Type := String → Option FData

/-- Write (create or overwrite) one file. -/
def fsSet (fs : FS) (p : String) (d : FData) : FS :=
  fun q => if q = p then some d else fs q

/-- Remove one file (`unlink`), a no-op if absent. -/
def fsDel (fs : FS) (p : String) : FS :=
  fun q => if q = p then none else fs q

/-! ## Aggregator (`transform_data`, include/utils/transform_pageviews.py)

The Python dict `totals` is modelled as `String → Option Int`: `none`
means the key is absent.  Its key set is fixed at initialisation
(`{company: 0 for company in target_companies}`) and never grows, because
the loop skips any `page_title not in totals`.  The entity set argument is
a `List String`; a Python `set` is the duplicate-free special case, and
every observable below depends only on membership. -/

/-- `totals = {company: 0 for company in target_companies}`. -/
def dictInit (target_companies : List String) : String → Option Int :=
  fun c => if c ∈ target_companies then some 0 else none

/-- One iteration of the streaming loop of `transform_data`: split the
line, skip short lines, non-"en" domains, untracked titles, unparsable
and negative counts; otherwise add the count to the title's accumulator. -/
def processLine (totals : String → Option Int) (line : String) : String → Option Int :=
  let parts := pySplit line
  if parts.length < 4 then totals
  else
    let domain_code := parts.getD 0 ""
    let page_title := parts.getD 1 ""
    if domain_code ≠ "en" then totals
    else
      match totals page_title with
      | none => totals
      | some cur =>
          match pyInt? (parts.getD 2 "") with
          | none => totals
          | some view_count =>
              if view_count < 0 then totals
              else fun c => if c = page_title then some (cur + view_count) else totals c

/-- The accumulated totals after streaming all lines. -/
def transform_totals (target_companies : List String) (lines : List String) :
    String → Option Int :=
  lines.foldl processLine (dictInit target_companies)

/-- Lexicographic-by-code-point strict order on character lists (Python's
string `<`). -/
def strLtB : List Char → List Char → Bool
  | [], [] => false
  | [], _ :: _ => true
  | _ :: _, [] => false
  | a :: as, b :: bs =>
      if a < b then true
      else if b < a then false
      else strLtB as bs

/-- Python's `≤` on strings, as the reflexive-total companion of `strLtB`. -/
def strLeB (a b : String) : Bool := ! strLtB b.toList a.toList

/-- `sorted(totals.keys())`: the distinct keys in ascending lexicographic
order. -/
def sortedKeys (target_companies : List String) : List String :=
  List.insertionSort (fun a b => strLeB a b = true) target_companies.dedup

/-- The CSV records written by `transform_data`: the fixed header then one
row per tracked entity in sorted order, carrying `str(total)` and the
hour key verbatim. -/
def transform_rows (target_companies : List String) (target_hour_timestamp : String)
    (lines : List String) : List (List String) :=
  ["company_name", "pageviews", "hour_timestamp"] ::
    (sortedKeys target_companies).map (fun company =>
      [company, pyStr ((transform_totals target_companies lines company).getD 0),
        target_hour_timestamp])

/-- `pathlib`'s `p.with_suffix(p.suffix + ".tmp")` (used by `fetch_data`
and `transform_data`) always equals `p + ".tmp"`. -/
def tmpSuffix (p : String) : String := p ++ ".tmp"

/-- Write the CSV records to the temporary path, then atomically rename
(`os.replace`) onto the output path. -/
def transformWrite (fs : FS) (output_file_path : String) (rows : List (List String)) : FS :=
  fsSet (fsDel (fsSet fs (tmpSuffix output_file_path) (.table rows))
    (tmpSuffix output_file_path)) output_file_path (.table rows)

/-- The whole Aggregator stage with its filesystem effects: validate,
stream-aggregate the input text file, write the CSV records to a
temporary file, atomically rename it over the output path, and return the
totals mapping. -/
def transform_data (fs : FS) (input_file_path target_hour_timestamp : String)
    (target_companies : List String) (output_file_path : String) :
    Except PyErr (FS × (String → Option Int)) :=
  match fs input_file_path with
  | none => .error .fileNotFound
  | some fd =>
      if target_companies = [] then .error .valueError
      else if target_hour_timestamp = "" then .error .valueError
      else
        match fd with
        | .text s =>
            let lines := pyLines s
            .ok (transformWrite fs output_file_path
                  (transform_rows target_companies target_hour_timestamp lines),
                transform_totals target_companies lines)
        | _ => .error .valueError

/-! ## Persister (`load_data`, include/utils/load_pageviews.py)

A CSV artifact is a list of records; the first record is the header
(`csv.DictReader`'s fieldnames).  A parsed row is
`(company_name, pageviews, hour_timestamp)` where the string cells are
`Option String` (`none` models `DictReader`'s `None` restval for a record
shorter than the header).  The database is `Option Table`: `none` while
the table has not been created.  Stored rows are fully materialised
`(company_name, pageviews, hour_timestamp)` triples; the wall-clock
`created_at` column is outside the model. -/

/-- One CSV artifact: header record then data records. -/
abbrev Csv := List (List String)

/-- A row as assembled by the reading loop of `load_data`. -/
abbrev ParsedRow := Option String × Int × Option String

/-- A stored database row. -/
abbrev Row := String × Int × String

abbrev Table := List Row

abbrev DB := Option Table

/-- Index of a field name in the header (`csv.DictReader` keying). -/
def colIdx : List String → String → Option Nat
  | [], _ => none
  | h :: t, key => if h = key then some 0 else (colIdx t key).map (· + 1)

/-- `row[key]` on a `DictReader` row: `KeyError` when the key is not a
field name, otherwise the record's cell at the key's position (or `None`
when the record is shorter than the header). -/
def lookupCell (header rec : List String) (key : String) : Except PyErr (Option String) :=
  match colIdx header key with
  | none => .error .keyError
  | some i => .ok rec[i]?

/-- `(row["company_name"], int(row["pageviews"]), row["hour_timestamp"])`,
with Python's evaluation order: the `int()` conversion happens before the
hour cell is looked up.  `int(None)` is a `TypeError`; `int` of a
non-numeric string is a `ValueError`. -/
def parseRow (header rec : List String) : Except PyErr ParsedRow :=
  match lookupCell header rec "company_name" with
  | .error e => .error e
  | .ok c? =>
      match lookupCell header rec "pageviews" with
      | .error e => .error e
      | .ok p? =>
          match p? with
          | none => .error .typeError
          | some s =>
              match pyInt? s with
              | none => .error .valueError
              | some v =>
                  match lookupCell header rec "hour_timestamp" with
                  | .error e => .error e
                  | .ok h? => .ok (c?, v, h?)

/-- Parse the data records against the header, stopping at the first bad
record (the reading loop raises there). -/
def parseRowsList (header : List String) : List (List String) → Except PyErr (List ParsedRow)
  | [] => .ok []
  | rec :: rest =>
      match parseRow header rec with
      | .error e => .error e
      | .ok r =>
          match parseRowsList header rest with
          | .error e => .error e
          | .ok rs => .ok (r :: rs)

/-- The full parse phase of `load_data`: an empty file has no header and
yields no rows. -/
def parseRows : Csv → Except PyErr (List ParsedRow)
  | [] => .ok []
  | header :: recs => parseRowsList header recs

/-- `DELETE FROM t WHERE hour_timestamp = hour`. -/
def deleteHour (t : Table) (hour : String) : Table :=
  t.filter (fun r => !(r.2.2 == hour))

/-- Does inserting `(c, _, h)` violate the `(company_name,
hour_timestamp)` uniqueness constraint against `t`? -/
def rowConflict (t : Table) (c h : String) : Bool :=
  t.any (fun r => r.1 == c && r.2.2 == h)

/-- A parsed row coerced to a stored row (defaults never fire on rows the
insert accepts). -/
def normRow (r : ParsedRow) : Row := (r.1.getD "", r.2.1, r.2.2.getD "")

/-- `execute_batch` of the INSERT: rows go in one at a time; a NULL in a
NOT NULL column or a uniqueness violation aborts (and the surrounding
transaction rolls back). -/
def insertRows : Table → List ParsedRow → Except PyErr Table
  | t, [] => .ok t
  | t, r :: rest =>
      match r.1, r.2.2 with
      | some c, some h =>
          if rowConflict t c h then .error .dbError
          else insertRows (t ++ [(c, r.2.1, h)]) rest
      | _, _ => .error .dbError

/-- The Persister: validate inputs, parse the CSV artifact, and when it
has any rows run the create-if-absent / delete-hour / batch-insert
transaction.  The result pairs the final database state (unchanged on
any error: the transaction rolls back and parse errors happen before a
connection is opened) with the returned row count or raised exception.
`csv_file?` is the artifact at `csv_file_path` (`none`: no such file);
`table_name` only names the single modelled table. -/
def load_data (csv_file? : Option Csv) (target_hour_timestamp : String)
    (table_name : String) (db : DB) : DB × Except PyErr Nat :=
  match csv_file? with
  | none => (db, .error .fileNotFound)
  | some csv =>
      if target_hour_timestamp = "" then (db, .error .valueError)
      else
        match parseRows csv with
        | .error e => (db, .error e)
        | .ok rows =>
            if rows.isEmpty then (db, .ok 0)
            else
              match insertRows (deleteHour (db.getD []) target_hour_timestamp) rows with
              | .error e => (db, .error e)
              | .ok t2 => (some t2, .ok rows.length)

/-! ## Acquirer (`fetch_data`, include/utils/fetch_pageviews.py) and
Decoder (`extract_data`, include/utils/extract_pageviews.py)

Both stages are modelled with trace semantics: `Outcome.states` lists the
filesystem after each primitive mutation strictly before the last one,
`Outcome.fs` is the final filesystem, and `Outcome.result` the returned
path or raised exception.  The network is the `Net` oracle: it fails
before any body bytes, delivers some chunks then fails mid-stream, or
delivers all chunks and succeeds. -/

/-- The behaviour of `requests.get` + `iter_content` for one call. -/
inductive Net where
  | fail
  | interrupted (chunks : List String)
  | ok (chunks : List String)
deriving Repr

structure Outcome where
  states : List FS
  fs : FS
  result : Except PyErr String

/-- Text currently stored at an open-for-write path. -/
def contentOf : Option FData → String
  | some (.text s) => s
  | _ => ""

/-- Successive filesystem states as chunks are appended to the open
temporary file. -/
def writeChunkStates (fs : FS) (tmp : String) : List String → List FS
  | [] => []
  | c :: cs =>
      let fs1 := fsSet fs tmp (.text (contentOf (fs tmp) ++ c))
      fs1 :: writeChunkStates fs1 tmp cs

/-- The last state of a write sequence (the state before it if no chunk
was written). -/
def lastFS (fs : FS) (l : List FS) : FS := l.getLastD fs

/-- The Acquirer.  `mkdir` of the parent is a no-op; if the output already
exists the download is skipped; otherwise the body streams into
`output_path + ".tmp"` which is atomically renamed on success and
unlinked on any failure. -/
def fetch_data (fs0 : FS) (net : Net) (url output_path : String) : Outcome :=
  if (fs0 output_path).isSome then ⟨[], fs0, .ok output_path⟩
  else
    let tmp_path := tmpSuffix output_path
    match net with
    | .fail => ⟨[], fsDel fs0 tmp_path, .error .requestError⟩
    | .interrupted chunks =>
        let s1 := fsSet fs0 tmp_path (.text "")
        let ss := writeChunkStates s1 tmp_path chunks
        ⟨s1 :: ss, fsDel (lastFS s1 ss) tmp_path, .error .requestError⟩
    | .ok chunks =>
        let s1 := fsSet fs0 tmp_path (.text "")
        let ss := writeChunkStates s1 tmp_path chunks
        let sl := lastFS s1 ss
        ⟨s1 :: ss, fsSet (fsDel sl tmp_path) output_path (.text (contentOf (sl tmp_path))),
          .ok output_path⟩

/-- `pathlib`'s `p.with_suffix(".tmp")` (used by `extract_data`): drop the
final component's extension (a rightmost dot that is neither its first
nor its last character) and append `".tmp"`. -/
def withSuffixTmp (p : String) : String :=
  let rev := p.toList.reverse
  let base := rev.takeWhile (· ≠ '/')
  let dir := rev.dropWhile (· ≠ '/')
  let stemRev :=
    match base.findIdx? (· = '.') with
    | none => base
    | some k => if 0 < k ∧ k < base.length - 1 then base.drop (k + 1) else base
  ⟨dir.reverse⟩ ++ ⟨stemRev.reverse⟩ ++ ".tmp"

/-- The Decoder: fail if the archive is missing, skip if the output
exists, else stream the decompressed lines into `with_suffix(".tmp")`,
atomically rename on success, unlink the temporary file on any failure. -/
def extract_data (fs0 : FS) (input_gzip_path output_text_path : String) : Outcome :=
  match fs0 input_gzip_path with
  | none => ⟨[], fs0, .error .fileNotFound⟩
  | some fd =>
      if (fs0 output_text_path).isSome then ⟨[], fs0, .ok output_text_path⟩
      else
        let tmp_path := withSuffixTmp output_text_path
        match fd with
        | .gz (.ok lines) =>
            let s1 := fsSet fs0 tmp_path (.text "")
            let ss := writeChunkStates s1 tmp_path lines
            let sl := lastFS s1 ss
            ⟨s1 :: ss, fsSet (fsDel sl tmp_path) output_text_path
              (.text (contentOf (sl tmp_path))), .ok output_text_path⟩
        | .gz (.truncated lines) =>
            let s1 := fsSet fs0 tmp_path (.text "")
            let ss := writeChunkStates s1 tmp_path lines
            ⟨s1 :: ss, fsDel (lastFS s1 ss) tmp_path, .error .badGzip⟩
        | _ =>
            let s1 := fsSet fs0 tmp_path (.text "")
            ⟨[s1], fsDel s1 tmp_path, .error .badGzip⟩

deriving instance DecidableEq for Except

/-- Decidable form of "every data row of the artifact that the parse
phase accepts carries this hour key". -/
def rowsCarryHour (csv : Csv) (hour : String) : Bool :=
  match parseRows csv with
  | .ok rows => rows.all (fun r => r.2.2 == some hour)
  | .error _ => true

/-! ## Concrete fixtures used by witnesses and counterexamples -/

/-- The reference input of the repository's test
(`include/tests/test_transform_data.py`). -/
def sampleText : String :=
  "en Amazon 100 12345\nen Amazon 50 12345\nen Apple 20 12345\nen RandomPage 999 12345\nen Facebook 70 12345\n"

def sampleCompanies : List String := ["Amazon", "Apple", "Facebook"]

/-- A filesystem holding only the sample extracted dump. -/
def sampleFS : FS :=
  fun p => if p = "in.txt" then some (.text sampleText) else none

/-- A filesystem holding the sample dump and a stale artifact already
present at the Aggregator's output path. -/
def staleOutFS : FS :=
  fun p =>
    if p = "in.txt" then some (.text "en Amazon 3 12345\n")
    else if p = "out.csv" then some (.table [["stale"]]) else none

/-- A filesystem with an existing Decoder output but no archive. -/
def noGzFS : FS :=
  fun p => if p = "out.txt" then some (.text "old") else none

/-- A filesystem holding only a well-formed archive at `in.gz`. -/
def gzOnlyFS : FS :=
  fun p => if p = "in.gz" then some (.gz (.ok ["data\n"])) else none

/-- A filesystem holding an archive and an existing output. -/
def gzAndOutFS : FS :=
  fun p =>
    if p = "in.gz" then some (.gz (.ok ["data\n"]))
    else if p = "out.txt" then some (.text "already") else none

/-- A CSV artifact with a non-integer pageviews cell. -/
def badCellCsv : Csv :=
  [["company_name", "pageviews", "hour_timestamp"],
   ["Amazon", "abc", "2025-12-10T17:00:00+00:00"]]

/-- A well-formed two-row artifact for one hour. -/
def goodCsv : Csv :=
  [["company_name", "pageviews", "hour_timestamp"],
   ["Amazon", "150", "2025-12-10T17:00:00+00:00"],
   ["Apple", "20", "2025-12-10T17:00:00+00:00"]]

/-! ## Theorems -/

theorem natDigitsRevAux_congr :
    ∀ f1 f2 n, n ≤ f1 → n ≤ f2 → natDigitsRevAux f1 n = natDigitsRevAux f2 n := by
  intro f1
  induction f1 with
  | zero =>
      intro f2 n h1 _
      have hn : n = 0 := Nat.le_zero.mp h1
      subst hn
      cases f2 with
      | zero => rfl
      | succ k => simp [natDigitsRevAux]
  | succ f ih =>
      intro f2 n h1 h2
      cases f2 with
      | zero =>
          have hn : n = 0 := Nat.le_zero.mp h2
          subst hn
          simp [natDigitsRevAux]
      | succ k =>
          by_cases h : n < 10
          · simp [natDigitsRevAux, h]
          · simp only [natDigitsRevAux, if_neg h]
            have hd : n / 10 < n := Nat.div_lt_self (by omega) (by omega)
            rw [ih k (n / 10) (by omega) (by omega)]

theorem natDigitsRev_eq (n : Nat) :
    natDigitsRev n = if n < 10 then [digitChar10 n]
      else digitChar10 (n % 10) :: natDigitsRev (n / 10) := by
  by_cases h : n < 10
  · rw [if_pos h]
    unfold natDigitsRev
    cases hn : n with
    | zero => simp [natDigitsRevAux]
    | succ m => simp [natDigitsRevAux, hn ▸ h]
  · rw [if_neg h]
    unfold natDigitsRev
    cases hn : n with
    | zero => omega
    | succ m =>
        simp only [natDigitsRevAux, if_neg (hn ▸ h)]
        have hd : (m + 1) / 10 < m + 1 := Nat.div_lt_self (by omega) (by omega)
        rw [natDigitsRevAux_congr m ((m + 1) / 10) ((m + 1) / 10) (by omega) (by omega)]

theorem digitVal?_digitChar10 : ∀ d, d < 10 → digitVal? (digitChar10 d) = some d := by
  decide

theorem natDigitsRev_all_digits : ∀ n, ∀ c ∈ natDigitsRev n, (digitVal? c).isSome := by
  intro n
  induction n using Nat.strong_induction_on with
  | _ n ih =>
      intro c hc
      rw [natDigitsRev_eq] at hc
      by_cases h : n < 10
      · rw [if_pos h] at hc
        simp only [List.mem_singleton] at hc
        subst hc
        rw [digitVal?_digitChar10 n h]
        rfl
      · rw [if_neg h] at hc
        rcases List.mem_cons.mp hc with h1 | h2
        · subst h1
          rw [digitVal?_digitChar10 _ (Nat.mod_lt _ (by omega))]
          rfl
        · exact ih (n / 10) (Nat.div_lt_self (by omega) (by omega)) c h2

theorem valRev_natDigitsRev : ∀ n, valRev (natDigitsRev n) = n := by
  intro n
  induction n using Nat.strong_induction_on with
  | _ n ih =>
      rw [natDigitsRev_eq]
      by_cases h : n < 10
      · rw [if_pos h]
        simp [valRev, digitVal?_digitChar10 n h]
      · rw [if_neg h]
        have hd : n / 10 < n := Nat.div_lt_self (by omega) (by omega)
        simp only [valRev, digitVal?_digitChar10 _ (Nat.mod_lt _ (by omega)), Option.getD_some,
          ih (n / 10) hd]
        omega

theorem natDigitsRev_ne_nil (n : Nat) : natDigitsRev n ≠ [] := by
  rw [natDigitsRev_eq]
  split <;> simp

theorem parseDigitsAux_digits (ds : List Char) :
    ∀ acc, (∀ c ∈ ds, (digitVal? c).isSome) →
      parseDigitsAux acc ds = some (ds.foldl (fun a c => 10 * a + (digitVal? c).getD 0) acc) := by
  induction ds with
  | nil => intro acc _; rfl
  | cons c cs ih =>
      intro acc hall
      have hc : (digitVal? c).isSome := hall c (List.mem_cons_self _ _)
      have hcne : ¬ c = '_' := by
        intro h; subst h; simp [digitVal?] at hc
      obtain ⟨d, hd⟩ := Option.isSome_iff_exists.mp hc
      rw [parseDigitsAux.eq_def]
      simp only [if_neg hcne, hd]
      rw [ih _ (fun x hx => hall x (List.mem_cons_of_mem _ hx))]
      simp [hd]

theorem foldl_digits_reverse (ds : List Char) :
    ∀ acc, (ds.reverse.foldl (fun a c => 10 * a + (digitVal? c).getD 0) acc)
      = acc * 10 ^ ds.length + valRev ds := by
  induction ds with
  | nil => intro acc; simp [valRev]
  | cons c cs ih =>
      intro acc
      simp only [List.reverse_cons, List.foldl_append, List.foldl_cons, List.foldl_nil, ih,
        List.length_cons, valRev]
      ring

theorem parseDigits_digits (ds : List Char) (hne : ds ≠ [])
    (hall : ∀ c ∈ ds, (digitVal? c).isSome) :
    parseDigits ds = some (ds.foldl (fun a c => 10 * a + (digitVal? c).getD 0) 0) := by
  rcases ds with _ | ⟨c, rest⟩
  · exact absurd rfl hne
  · have hc : (digitVal? c).isSome := hall c (List.mem_cons_self _ _)
    have hcne : ¬ c = '_' := by
      intro h; subst h; simp [digitVal?] at hc
    obtain ⟨d, hd⟩ := Option.isSome_iff_exists.mp hc
    simp only [parseDigits, if_neg hcne, hd]
    rw [parseDigitsAux_digits rest d (fun x hx => hall x (List.mem_cons_of_mem _ hx))]
    simp only [List.foldl_cons, hd, Option.getD_some, Nat.mul_zero, Nat.zero_add]

theorem parseDigits_natDigits (n : Nat) : parseDigits (natDigits n) = some n := by
  have hne : natDigits n ≠ [] := by
    intro h
    exact natDigitsRev_ne_nil n (by simpa [natDigits] using congrArg List.reverse h)
  have hall : ∀ c ∈ natDigits n, (digitVal? c).isSome := by
    intro c hc
    exact natDigitsRev_all_digits n c (by simpa [natDigits] using hc)
  rw [parseDigits_digits _ hne hall]
  have := foldl_digits_reverse (natDigitsRev n) 0
  simp only [natDigits]
  rw [this, valRev_natDigitsRev n]
  simp

theorem not_space_of_digit {c : Char} (h : (digitVal? c).isSome) : pyIsSpace c = false := by
  by_contra hs
  have hc : pyIsSpace c = true := by revert hs; cases pyIsSpace c <;> simp
  simp only [pyIsSpace, Bool.or_eq_true, decide_eq_true_eq] at hc
  rcases hc with (((((h1 | h1) | h1) | h1) | h1) | h1) <;>
    (subst h1; simp [digitVal?] at h)

theorem dropWhile_head_false {p : Char → Bool} : ∀ {l : List Char},
    (∀ c ∈ l.head?, p c = false) → l.dropWhile p = l := by
  intro l h
  cases l with
  | nil => rfl
  | cons c cs =>
      have := h c rfl
      simp [List.dropWhile, this]

theorem toList_mk (l : List Char) : (String.mk l).toList = l := rfl

/-- Stripping whitespace from a string whose first and last characters are
digits or a sign is the identity. -/
theorem strip_id {l : List Char}
    (h1 : ∀ c ∈ l.head?, pyIsSpace c = false)
    (h2 : ∀ c ∈ l.reverse.head?, pyIsSpace c = false) :
    ((l.dropWhile pyIsSpace).reverse.dropWhile pyIsSpace).reverse = l := by
  rw [dropWhile_head_false h1, dropWhile_head_false h2, List.reverse_reverse]

theorem mem_of_head? {α : Type} {l : List α} {a : α} (h : l.head? = some a) : a ∈ l := by
  cases l with
  | nil => simp at h
  | cons x xs =>
      simp only [List.head?_cons, Option.some.injEq] at h
      subst h
      exact List.mem_cons_self _ _

theorem pyInt?_pyStr (i : Int) : pyInt? (pyStr i) = some i := by
  have habs : ∀ m : Nat, parseDigits (natDigits m) = some m := parseDigits_natDigits
  by_cases hi : i < 0
  · have hstr : (pyStr i).toList = '-' :: natDigits (-i).toNat := by
      rw [pyStr, if_pos hi]; rfl
    have hne := natDigitsRev_ne_nil (-i).toNat
    have hstrip : ((('-' :: natDigits (-i).toNat).dropWhile pyIsSpace).reverse.dropWhile
        pyIsSpace).reverse = '-' :: natDigits (-i).toNat := by
      apply strip_id
      · intro c hc; simp only [List.head?_cons, Option.mem_def, Option.some.injEq] at hc
        subst hc; rfl
      · intro c hc
        have hmem : c ∈ ('-' :: natDigits (-i).toNat).reverse := mem_of_head? hc
        have hmem2 : c ∈ natDigitsRev (-i).toNat ∨ c = '-' := by
          simpa [natDigits] using hmem
        rcases hmem2 with hm | hm
        · exact not_space_of_digit (natDigitsRev_all_digits _ c hm)
        · subst hm; rfl
    simp only [pyInt?, hstr, hstrip]
    simp only [reduceIte, habs, Option.map_some', Option.some.injEq, Int.ofNat_eq_coe]
    omega
  · have hstr : (pyStr i).toList = natDigits i.toNat := by
      rw [pyStr, if_neg hi]; rfl
    have hne : natDigits i.toNat ≠ [] := by
      intro h
      exact natDigitsRev_ne_nil i.toNat (by simpa [natDigits] using congrArg List.reverse h)
    have hall : ∀ c ∈ natDigits i.toNat, (digitVal? c).isSome := by
      intro c hc
      exact natDigitsRev_all_digits i.toNat c (by simpa [natDigits] using hc)
    have hstrip : (((natDigits i.toNat).dropWhile pyIsSpace).reverse.dropWhile
        pyIsSpace).reverse = natDigits i.toNat := by
      apply strip_id
      · intro c hc; exact not_space_of_digit (hall c (mem_of_head? hc))
      · intro c hc
        have : c ∈ (natDigits i.toNat).reverse := mem_of_head? hc
        exact not_space_of_digit (hall c (by simpa using this))
    rcases h : natDigits i.toNat with _ | ⟨c, rest⟩
    · exact absurd h hne
    · have hcd : (digitVal? c).isSome := hall c (by rw [h]; exact List.mem_cons_self _ _)
      have hc1 : ¬ c = '-' := by intro hx; subst hx; simp [digitVal?] at hcd
      have hc2 : ¬ c = '+' := by intro hx; subst hx; simp [digitVal?] at hcd
      simp only [pyInt?, hstr, hstrip]
      simp only [h, if_neg hc1, if_neg hc2]
      rw [← h, habs]
      simp only [Option.map_some', Option.some.injEq, Int.ofNat_eq_coe]
      omega

theorem fsSet_same (fs : FS) (p : String) (d : FData) : fsSet fs p d p = some d := by
  simp [fsSet]

theorem fsSet_other (fs : FS) (p q : String) (d : FData) (h : q ≠ p) :
    fsSet fs p d q = fs q := by
  simp [fsSet, h]

theorem fsDel_same (fs : FS) (p : String) : fsDel fs p p = none := by
  simp [fsDel]

theorem fsDel_other (fs : FS) (p q : String) (h : q ≠ p) : fsDel fs p q = fs q := by
  simp [fsDel, h]

theorem tmpSuffix_ne (s : String) : tmpSuffix s ≠ s := by
  intro h
  have hl := congrArg String.length h
  rw [tmpSuffix, String.length_append] at hl
  have h4 : (".tmp" : String).length = 4 := rfl
  omega

theorem writeChunkStates_other (tmp q : String) (hq : q ≠ tmp) :
    ∀ (cs : List String) (fs : FS), ∀ s ∈ writeChunkStates fs tmp cs, s q = fs q := by
  intro cs
  induction cs with
  | nil =>
      intro fs s hs
      simp [writeChunkStates] at hs
  | cons c rest ih =>
      intro fs s hs
      simp only [writeChunkStates, List.mem_cons] at hs
      rcases hs with h | h
      · subst h
        exact fsSet_other _ _ _ _ hq
      · rw [ih _ s h, fsSet_other _ _ _ _ hq]

theorem getLastD_mem_or {α : Type} : ∀ (l : List α) (d : α), l.getLastD d = d ∨ l.getLastD d ∈ l := by
  intro l
  induction l with
  | nil => intro d; left; rfl
  | cons a t ih =>
      intro d
      rw [List.getLastD_cons]
      rcases ih a with h | h
      · right; rw [h]; exact List.mem_cons_self _ _
      · right; exact List.mem_cons_of_mem _ h

theorem lastFS_other (fs : FS) (tmp q : String) (hq : q ≠ tmp) (cs : List String) :
    lastFS fs (writeChunkStates fs tmp cs) q = fs q := by
  unfold lastFS
  rcases getLastD_mem_or (writeChunkStates fs tmp cs) fs with h | h
  · rw [h]
  · exact writeChunkStates_other tmp q hq cs fs _ h

/-- Claim C6: when a file already exists at the destination path, `fetch_data`
and `extract_data` (the latter given an existing archive) return the
destination immediately: no state is mutated, the result does not depend
on the network or archive contents, and the filesystem — in particular
the existing file — is unchanged. -/
theorem fetch_extract_skip_when_output_exists :
    (∀ (fs : FS) (net : Net) (url out : String), (fs out).isSome →
      fetch_data fs net url out = ⟨[], fs, .ok out⟩)
    ∧ (∀ (fs : FS) (gin out : String), (fs gin).isSome → (fs out).isSome →
      extract_data fs gin out = ⟨[], fs, .ok out⟩) := by
  constructor
  · intro fs net url out h
    simp [fetch_data, h]
  · intro fs gin out h1 h2
    obtain ⟨fd, hfd⟩ := Option.isSome_iff_exists.mp h1
    simp [extract_data, hfd, h2]

theorem fetch_extract_skip_witness :
    fetch_data gzAndOutFS (.ok ["payload"]) "http://u" "out.txt"
        = ⟨[], gzAndOutFS, .ok "out.txt"⟩
    ∧ extract_data gzAndOutFS "in.gz" "out.txt" = ⟨[], gzAndOutFS, .ok "out.txt"⟩ :=
  ⟨fetch_extract_skip_when_output_exists.1 gzAndOutFS (.ok ["payload"]) "http://u" "out.txt"
      (by decide),
   fetch_extract_skip_when_output_exists.2 gzAndOutFS "in.gz" "out.txt" (by decide) (by decide)⟩

/-- Claim C9: when no file exists at the archive path, `extract_data` fails
with `FileNotFoundError` and mutates nothing — for every filesystem, in
particular one where the output file already exists: the missing-input
check precedes the idempotent skip. -/
theorem extract_missing_input_error (fs : FS) (gin out : String) (h : fs gin = none) :
    extract_data fs gin out = ⟨[], fs, .error .fileNotFound⟩ := by
  simp [extract_data, h]

theorem extract_missing_input_witness :
    (noGzFS "out.txt").isSome = true
    ∧ extract_data noGzFS "in.gz" "out.txt" = ⟨[], noGzFS, .error .fileNotFound⟩ :=
  ⟨by decide, extract_missing_input_error noGzFS "in.gz" "out.txt" (by decide)⟩

theorem transformWrite_other (fs : FS) (out : String) (rows : List (List String)) (q : String)
    (h1 : q ≠ out) (h2 : q ≠ tmpSuffix out) : transformWrite fs out rows q = fs q := by
  unfold transformWrite
  rw [fsSet_other _ _ _ _ h1, fsDel_other _ _ _ h2, fsSet_other _ _ _ _ h2]

theorem transformWrite_out (fs : FS) (out : String) (rows : List (List String)) :
    transformWrite fs out rows out = some (.table rows) :=
  fsSet_same _ _ _

theorem transformWrite_tmp (fs : FS) (out : String) (rows : List (List String)) :
    transformWrite fs out rows (tmpSuffix out) = none := by
  unfold transformWrite
  rw [fsSet_other _ _ _ _ (tmpSuffix_ne out), fsDel_same]

theorem transformWrite_idem (fs : FS) (out : String) (rows : List (List String)) :
    transformWrite (transformWrite fs out rows) out rows = transformWrite fs out rows := by
  funext q
  by_cases h1 : q = out
  · subst h1
    rw [transformWrite_out, transformWrite_out]
  · by_cases h2 : q = tmpSuffix out
    · subst h2
      rw [transformWrite_tmp, transformWrite_tmp]
    · rw [transformWrite_other _ _ _ _ h1 h2, transformWrite_other _ _ _ _ h1 h2]

/-- Evaluation of a successful Aggregator run on a text input. -/
theorem transform_data_text (fs : FS) (inp hour : String) (S : List String) (out s : String)
    (hin : fs inp = some (.text s)) (hS : S ≠ []) (hh : hour ≠ "") :
    transform_data fs inp hour S out
      = .ok (transformWrite fs out (transform_rows S hour (pyLines s)),
          transform_totals S (pyLines s)) := by
  simp [transform_data, hin, hS, hh]

/-- Claim C5 counterexample: with an artifact already present at the output
path, `transform_data` does not skip — the run succeeds and replaces the
existing artifact's content. -/
theorem transform_no_skip_cex :
    (staleOutFS "out.csv").isSome = true
    ∧ staleOutFS "out.csv" = some (.table [["stale"]])
    ∧ (transform_data staleOutFS "in.txt" "2025-12-10T17:00" sampleCompanies "out.csv").map
        (fun p => p.1 "out.csv")
      = .ok (some (.table [["company_name", "pageviews", "hour_timestamp"],
          ["Amazon", "3", "2025-12-10T17:00"], ["Apple", "0", "2025-12-10T17:00"],
          ["Facebook", "0", "2025-12-10T17:00"]]))
    ∧ (transform_data staleOutFS "in.txt" "2025-12-10T17:00" sampleCompanies "out.csv").map
        (fun p => p.1 "out.csv") ≠ .ok (staleOutFS "out.csv") := by
  exact ⟨by decide, by decide, by decide, by decide⟩

/-- Claim C5 amended: the Aggregator performs no presence check, but re-running
it with the same arguments is idempotent — the second run recomputes the
same artifact and atomically overwrites it, leaving the filesystem and
the returned mapping exactly as after the first run.  (The temporary and
output paths must differ from the input path, as they do in the
pipeline's layout.) -/
theorem transform_rerun_idempotent (fs : FS) (inp hour : String) (S : List String)
    (out : String) (h1 : out ≠ inp) (h2 : tmpSuffix out ≠ inp) :
    (transform_data fs inp hour S out).bind
        (fun p => transform_data p.1 inp hour S out)
      = transform_data fs inp hour S out := by
  cases hin : fs inp with
  | none => simp [transform_data, hin, Except.bind]
  | some fd =>
      by_cases hS : S = []
      · simp [transform_data, hin, hS, Except.bind]
      · by_cases hh : hour = ""
        · simp [transform_data, hin, hS, hh, Except.bind]
        · cases fd with
          | text s =>
              rw [transform_data_text fs inp hour S out s hin hS hh]
              have hinp2 : transformWrite fs out (transform_rows S hour (pyLines s)) inp
                  = some (.text s) := by
                rw [transformWrite_other _ _ _ _ (Ne.symm h1) (Ne.symm h2), hin]
              show (transform_data (transformWrite fs out (transform_rows S hour (pyLines s)))
                  inp hour S out) = _
              rw [transform_data_text _ inp hour S out s hinp2 hS hh, transformWrite_idem]
          | table rows => simp [transform_data, hin, hS, hh, Except.bind]
          | gz g => simp [transform_data, hin, hS, hh, Except.bind]

theorem transform_rerun_witness :
    (transform_data sampleFS "in.txt" "2025-12-10T17:00" sampleCompanies "out.csv").bind
        (fun p => transform_data p.1 "in.txt" "2025-12-10T17:00" sampleCompanies "out.csv")
      = transform_data sampleFS "in.txt" "2025-12-10T17:00" sampleCompanies "out.csv" :=
  transform_rerun_idempotent sampleFS "in.txt" "2025-12-10T17:00" sampleCompanies "out.csv"
    (by decide) (by decide)

/-- Claim C8 counterexample: `extract_data` derives its temporary path with
`with_suffix(".tmp")`, so a destination whose own suffix is `.tmp`
coincides with its temporary path; mid-write a partial file (here the
just-truncated empty file) is visible at the final destination path even
though the run succeeds. -/
theorem atomic_write_cex :
    withSuffixTmp "out.tmp" = "out.tmp"
    ∧ gzOnlyFS "out.tmp" = none
    ∧ (extract_data gzOnlyFS "in.gz" "out.tmp").result = .ok "out.tmp"
    ∧ ((extract_data gzOnlyFS "in.gz" "out.tmp").states.headD (fun _ => none)) "out.tmp"
        = some (.text "")
    ∧ (extract_data gzOnlyFS "in.gz" "out.tmp").fs "out.tmp" = some (.text "data\n") := by
  exact ⟨by decide, by decide, by decide, by decide, by decide⟩

/-- Claim C8 amended: for `fetch_data` always, and for `extract_data` whenever
the destination's pathlib suffix is not itself `.tmp` (so the derived
temporary path differs from the destination), a write never exposes any
file at the final destination path before the atomic rename, and on any
error arising after the write began the temporary file is deleted before
the error propagates, so a failed attempt leaves no file at either the
destination or the temporary path. -/
theorem atomic_write_cleanup :
    (∀ (fs0 : FS) (net : Net) (url out : String), fs0 out = none →
      (∀ s ∈ (fetch_data fs0 net url out).states, s out = none)
      ∧ (∀ e, (fetch_data fs0 net url out).result = .error e →
          (fetch_data fs0 net url out).fs out = none
          ∧ (fetch_data fs0 net url out).fs (tmpSuffix out) = none))
    ∧ (∀ (fs0 : FS) (gin out : String), fs0 out = none → withSuffixTmp out ≠ out →
      (∀ s ∈ (extract_data fs0 gin out).states, s out = none)
      ∧ (∀ e, (extract_data fs0 gin out).result = .error e → e ≠ .fileNotFound →
          (extract_data fs0 gin out).fs out = none
          ∧ (extract_data fs0 gin out).fs (withSuffixTmp out) = none)) := by
  constructor
  · intro fs0 net url out hout
    have hskip : (fs0 out).isSome = false := by rw [hout]; rfl
    have hne : out ≠ tmpSuffix out := fun h => tmpSuffix_ne out h.symm
    cases net with
    | fail =>
        simp only [fetch_data, hskip, Bool.false_eq_true, if_false]
        constructor
        · intro s hs; simp at hs
        · intro e _
          exact ⟨by rw [fsDel_other _ _ _ hne, hout], fsDel_same _ _⟩
    | interrupted chunks =>
        simp only [fetch_data, hskip, Bool.false_eq_true, if_false]
        constructor
        · intro s hs
          rcases List.mem_cons.mp hs with h | h
          · subst h; rw [fsSet_other _ _ _ _ hne, hout]
          · rw [writeChunkStates_other _ _ hne _ _ s h, fsSet_other _ _ _ _ hne, hout]
        · intro e _
          constructor
          · rw [fsDel_other _ _ _ hne, lastFS_other _ _ _ hne, fsSet_other _ _ _ _ hne, hout]
          · exact fsDel_same _ _
    | ok chunks =>
        simp only [fetch_data, hskip, Bool.false_eq_true, if_false]
        constructor
        · intro s hs
          rcases List.mem_cons.mp hs with h | h
          · subst h; rw [fsSet_other _ _ _ _ hne, hout]
          · rw [writeChunkStates_other _ _ hne _ _ s h, fsSet_other _ _ _ _ hne, hout]
        · intro e he; cases he
  · intro fs0 gin out hout htmp
    have hskip : (fs0 out).isSome = false := by rw [hout]; rfl
    have hne : out ≠ withSuffixTmp out := fun h => htmp h.symm
    cases hgin : fs0 gin with
    | none =>
        simp only [extract_data, hgin]
        constructor
        · intro s hs; simp at hs
        · intro e he hnf
          exact absurd (by cases he; rfl) hnf
    | some fd =>
        cases fd with
        | text s0 =>
            simp only [extract_data, hgin, hskip, Bool.false_eq_true, if_false]
            constructor
            · intro s hs
              rcases List.mem_cons.mp hs with h | h
              · subst h; rw [fsSet_other _ _ _ _ hne, hout]
              · simp at h
            · intro e _ _
              constructor
              · rw [fsDel_other _ _ _ hne, fsSet_other _ _ _ _ hne, hout]
              · exact fsDel_same _ _
        | table rows =>
            simp only [extract_data, hgin, hskip, Bool.false_eq_true, if_false]
            constructor
            · intro s hs
              rcases List.mem_cons.mp hs with h | h
              · subst h; rw [fsSet_other _ _ _ _ hne, hout]
              · simp at h
            · intro e _ _
              constructor
              · rw [fsDel_other _ _ _ hne, fsSet_other _ _ _ _ hne, hout]
              · exact fsDel_same _ _
        | gz g =>
            cases g with
            | ok lines =>
                simp only [extract_data, hgin, hskip, Bool.false_eq_true, if_false]
                constructor
                · intro s hs
                  rcases List.mem_cons.mp hs with h | h
                  · subst h; rw [fsSet_other _ _ _ _ hne, hout]
                  · rw [writeChunkStates_other _ _ hne _ _ s h, fsSet_other _ _ _ _ hne, hout]
                · intro e he; cases he
            | truncated lines =>
                simp only [extract_data, hgin, hskip, Bool.false_eq_true, if_false]
                constructor
                · intro s hs
                  rcases List.mem_cons.mp hs with h | h
                  · subst h; rw [fsSet_other _ _ _ _ hne, hout]
                  · rw [writeChunkStates_other _ _ hne _ _ s h, fsSet_other _ _ _ _ hne, hout]
                · intro e _ _
                  constructor
                  · rw [fsDel_other _ _ _ hne, lastFS_other _ _ _ hne, fsSet_other _ _ _ _ hne,
                      hout]
                  · exact fsDel_same _ _

theorem atomic_write_witness :
    ((fetch_data (fun _ => none) (.interrupted ["ab", "cd"]) "http://u" "o.gz").fs "o.gz" = none
      ∧ (fetch_data (fun _ => none) (.interrupted ["ab", "cd"]) "http://u" "o.gz").fs
          (tmpSuffix "o.gz") = none)
    ∧ ((extract_data (fun p => if p = "in.gz" then some (.gz (.truncated ["x\n"])) else none)
          "in.gz" "out.txt").fs "out.txt" = none
      ∧ (extract_data (fun p => if p = "in.gz" then some (.gz (.truncated ["x\n"])) else none)
          "in.gz" "out.txt").fs (withSuffixTmp "out.txt") = none) :=
  ⟨(atomic_write_cleanup.1 (fun _ => none) (.interrupted ["ab", "cd"]) "http://u" "o.gz"
      rfl).2 .requestError (by decide),
   (atomic_write_cleanup.2 (fun p => if p = "in.gz" then some (.gz (.truncated ["x\n"])) else none)
      "in.gz" "out.txt" (by decide) (by decide)).2 .badGzip (by decide) (by decide)⟩

/-- Unfolding equation for `processLine`. -/
theorem processLine_eq (t : String → Option Int) (line : String) :
    processLine t line =
      if (pySplit line).length < 4 then t
      else if (pySplit line).getD 0 "" ≠ "en" then t
      else
        match t ((pySplit line).getD 1 "") with
        | none => t
        | some cur =>
            match pyInt? ((pySplit line).getD 2 "") with
            | none => t
            | some view_count =>
                if view_count < 0 then t
                else fun c => if c = (pySplit line).getD 1 "" then some (cur + view_count)
                  else t c := rfl

theorem processLine_isSome (t : String → Option Int) (line c : String) :
    (processLine t line c).isSome = (t c).isSome := by
  rw [processLine_eq]
  by_cases h4 : (pySplit line).length < 4
  · rw [if_pos h4]
  · rw [if_neg h4]
    by_cases hd : (pySplit line).getD 0 "" ≠ "en"
    · rw [if_pos hd]
    · rw [if_neg hd]
      cases ht : t ((pySplit line).getD 1 "") with
      | none => rfl
      | some cur =>
          cases hp : pyInt? ((pySplit line).getD 2 "") with
          | none => rfl
          | some v =>
              show ((if v < 0 then t
                  else fun c0 => if c0 = (pySplit line).getD 1 "" then some (cur + v)
                    else t c0) c).isSome = (t c).isSome
              by_cases hv : v < 0
              · rw [if_pos hv]
              · rw [if_neg hv]
                show (if c = (pySplit line).getD 1 "" then some (cur + v) else t c).isSome = _
                by_cases hc : c = (pySplit line).getD 1 ""
                · rw [if_pos hc, hc, ht]; rfl
                · rw [if_neg hc]

theorem foldl_processLine_isSome (c : String) :
    ∀ (L : List String) (t : String → Option Int),
      ((L.foldl processLine t) c).isSome = (t c).isSome := by
  intro L
  induction L with
  | nil => intro t; rfl
  | cons l ls ih => intro t; rw [List.foldl_cons, ih, processLine_isSome]

theorem transform_totals_isSome (S : List String) (L : List String) (c : String) :
    (transform_totals S L c).isSome ↔ c ∈ S := by
  unfold transform_totals
  rw [foldl_processLine_isSome]
  unfold dictInit
  by_cases h : c ∈ S <;> simp [h]

theorem transform_totals_none (S : List String) (L : List String) (c : String)
    (h : c ∉ S) : transform_totals S L c = none := by
  have hiff := transform_totals_isSome S L c
  cases hc : transform_totals S L c with
  | none => rfl
  | some v => exact absurd (hiff.mp (by rw [hc]; rfl)) h

theorem processLine_skip (t : String → Option Int) (line : String)
    (h : (pySplit line).getD 0 "" ≠ "en"
       ∨ pyInt? ((pySplit line).getD 2 "") = none
       ∨ (∃ v, pyInt? ((pySplit line).getD 2 "") = some v ∧ v < 0)
       ∨ (pySplit line).length < 4) :
    processLine t line = t := by
  rw [processLine_eq]
  by_cases h4 : (pySplit line).length < 4
  · rw [if_pos h4]
  · rw [if_neg h4]
    by_cases hd : (pySplit line).getD 0 "" ≠ "en"
    · rw [if_pos hd]
    · rw [if_neg hd]
      cases ht : t ((pySplit line).getD 1 "") with
      | none => rfl
      | some cur =>
          cases hp : pyInt? ((pySplit line).getD 2 "") with
          | none => rfl
          | some v =>
              show (if v < 0 then t
                  else fun c0 => if c0 = (pySplit line).getD 1 "" then some (cur + v)
                    else t c0) = t
              rcases h with h | h | ⟨v2, hv1, hv2⟩ | h
              · exact absurd h hd
              · rw [h] at hp; cases hp
              · rw [hv1] at hp
                cases hp
                rw [if_pos hv2]
              · exact absurd h h4

/-- Claim C3: a line whose first token is not "en", or whose third token is not
an integer or is a negative integer, or that has fewer than 4
whitespace-separated tokens, contributes nothing: deleting it from the
input leaves every accumulated total unchanged.  (Per-line processing is
total by construction — the only throwing operation, `int()`, is wrapped
in try/except in the source and modelled by the total `pyInt?`.) -/
theorem aggregate_filter_invariants (S : List String) (L1 L2 : List String) (line : String)
    (h : (pySplit line).getD 0 "" ≠ "en"
       ∨ pyInt? ((pySplit line).getD 2 "") = none
       ∨ (∃ v, pyInt? ((pySplit line).getD 2 "") = some v ∧ v < 0)
       ∨ (pySplit line).length < 4) :
    transform_totals S (L1 ++ line :: L2) = transform_totals S (L1 ++ L2) := by
  unfold transform_totals
  rw [List.foldl_append, List.foldl_append, List.foldl_cons, processLine_skip _ line h]

theorem aggregate_filter_witness :
    transform_totals ["Amazon"] (["en Amazon 5 0"] ++ "fr Amazon 9 0" :: ["de Amazon 7 0"])
      = transform_totals ["Amazon"] (["en Amazon 5 0"] ++ ["de Amazon 7 0"]) :=
  aggregate_filter_invariants ["Amazon"] ["en Amazon 5 0"] ["de Amazon 7 0"] "fr Amazon 9 0"
    (Or.inl (by decide))

theorem processLine_other_title (t : String → Option Int) (line c : String)
    (h : (pySplit line).getD 1 "" ≠ c) : processLine t line c = t c := by
  rw [processLine_eq]
  by_cases h4 : (pySplit line).length < 4
  · rw [if_pos h4]
  · rw [if_neg h4]
    by_cases hd : (pySplit line).getD 0 "" ≠ "en"
    · rw [if_pos hd]
    · rw [if_neg hd]
      cases ht : t ((pySplit line).getD 1 "") with
      | none => rfl
      | some cur =>
          cases hp : pyInt? ((pySplit line).getD 2 "") with
          | none => rfl
          | some v =>
              show (if v < 0 then t
                  else fun c0 => if c0 = (pySplit line).getD 1 "" then some (cur + v)
                    else t c0) c = t c
              by_cases hv : v < 0
              · rw [if_pos hv]
              · rw [if_neg hv]
                show (if c = (pySplit line).getD 1 "" then some (cur + v) else t c) = t c
                rw [if_neg (fun hc => h hc.symm)]

theorem transform_totals_zero (S : List String) (L : List String) (c : String)
    (hc : c ∈ S) (h : ∀ l ∈ L, (pySplit l).getD 1 "" ≠ c) :
    transform_totals S L c = some 0 := by
  unfold transform_totals
  have hfold : ∀ (L2 : List String) (t : String → Option Int),
      (∀ l ∈ L2, (pySplit l).getD 1 "" ≠ c) → (L2.foldl processLine t) c = t c := by
    intro L2
    induction L2 with
    | nil => intro t _; rfl
    | cons a as ih =>
        intro t hl
        rw [List.foldl_cons, ih _ (fun x hx => hl x (List.mem_cons_of_mem _ hx)),
          processLine_other_title _ _ _ (hl a (List.mem_cons_self _ _))]
  rw [hfold L _ h]
  unfold dictInit
  rw [if_pos hc]

/-- Claim C4: for a non-empty entity set, the returned mapping's keys are
exactly the tracked entities; the written CSV has exactly one data row
per tracked entity (the sorted distinct entities, in order) and no row
for anything else; and an entity with no matching input line keeps total
0 and is emitted as a `0` row rather than omitted. -/
theorem aggregate_zero_rows (S : List String) (hour : String) (L : List String)
    (hS : S ≠ []) :
    (∀ c, (transform_totals S L c).isSome ↔ c ∈ S)
    ∧ ((transform_rows S hour L).drop 1).map (fun r => r.getD 0 "") = sortedKeys S
    ∧ (sortedKeys S).Nodup
    ∧ (∀ c, c ∈ sortedKeys S ↔ c ∈ S)
    ∧ (∀ c, c ∈ S → (∀ l ∈ L, (pySplit l).getD 1 "" ≠ c) →
        transform_totals S L c = some 0 ∧ [c, "0", hour] ∈ transform_rows S hour L) := by
  refine ⟨fun c => transform_totals_isSome S L c, ?_, ?_, ?_, ?_⟩
  · show List.map _ (List.drop 1 (_ :: List.map _ (sortedKeys S))) = sortedKeys S
    rw [List.drop_succ_cons, List.drop_zero, List.map_map]
    have hid : ∀ ks : List String,
        List.map ((fun r => List.getD r 0 "") ∘ fun company =>
          [company, pyStr ((transform_totals S L company).getD 0), hour]) ks = ks := by
      intro ks
      induction ks with
      | nil => rfl
      | cons a t ih => rw [List.map_cons, ih]; rfl
    exact hid _
  · exact (List.perm_insertionSort _ _).nodup_iff.mpr S.nodup_dedup
  · exact fun c => ((List.perm_insertionSort _ _).mem_iff).trans List.mem_dedup
  · intro c hc hnol
    have hz := transform_totals_zero S L c hc hnol
    refine ⟨hz, ?_⟩
    have hmem : c ∈ sortedKeys S :=
      (((List.perm_insertionSort _ _).mem_iff).trans List.mem_dedup).mpr hc
    have hrow : [c, pyStr ((transform_totals S L c).getD 0), hour]
        ∈ (sortedKeys S).map (fun company =>
            [company, pyStr ((transform_totals S L company).getD 0), hour]) :=
      List.mem_map_of_mem _ hmem
    rw [hz] at hrow
    have h0 : pyStr ((some (0 : Int)).getD 0) = "0" := by decide
    rw [h0] at hrow
    exact List.mem_cons_of_mem _ hrow

theorem aggregate_zero_rows_witness :
    ((∀ c, (transform_totals sampleCompanies [] c).isSome ↔ c ∈ sampleCompanies)
    ∧ ((transform_rows sampleCompanies "H" []).drop 1).map (fun r => r.getD 0 "")
        = sortedKeys sampleCompanies
    ∧ (sortedKeys sampleCompanies).Nodup
    ∧ (∀ c, c ∈ sortedKeys sampleCompanies ↔ c ∈ sampleCompanies)
    ∧ (∀ c, c ∈ sampleCompanies → (∀ l ∈ ([] : List String), (pySplit l).getD 1 "" ≠ c) →
        transform_totals sampleCompanies [] c = some 0
        ∧ [c, "0", "H"] ∈ transform_rows sampleCompanies "H" [])) :=
  aggregate_zero_rows sampleCompanies "H" [] (by decide)

/-- Claim C2: on the five reference lines with entity set
{Amazon, Apple, Facebook} and any non-empty hour key, the Aggregator
returns exactly the mapping Amazon ↦ 150, Apple ↦ 20, Facebook ↦ 70
(and nothing else), and the artifact it writes holds exactly the header
and those three rows in ascending alphabetical order, each carrying the
supplied hour key — no row for RandomPage. -/
theorem aggregate_reference_input (hour : String) (hh : hour ≠ "") :
    (transform_data sampleFS "in.txt" hour sampleCompanies "out.csv").map (fun p => p.2)
      = .ok (transform_totals sampleCompanies (pyLines sampleText))
    ∧ transform_totals sampleCompanies (pyLines sampleText) "Amazon" = some 150
    ∧ transform_totals sampleCompanies (pyLines sampleText) "Apple" = some 20
    ∧ transform_totals sampleCompanies (pyLines sampleText) "Facebook" = some 70
    ∧ (∀ c, c ∉ sampleCompanies →
        transform_totals sampleCompanies (pyLines sampleText) c = none)
    ∧ (transform_data sampleFS "in.txt" hour sampleCompanies "out.csv").map
        (fun p => p.1 "out.csv")
      = .ok (some (.table [["company_name", "pageviews", "hour_timestamp"],
          ["Amazon", "150", hour], ["Apple", "20", hour], ["Facebook", "70", hour]])) := by
  have hin : sampleFS "in.txt" = some (.text sampleText) := rfl
  have hrun := transform_data_text sampleFS "in.txt" hour sampleCompanies "out.csv" sampleText
    hin (by decide) hh
  have hrows : transform_rows sampleCompanies hour (pyLines sampleText)
      = [["company_name", "pageviews", "hour_timestamp"],
         ["Amazon", "150", hour], ["Apple", "20", hour], ["Facebook", "70", hour]] := by
    have hsk : sortedKeys sampleCompanies = ["Amazon", "Apple", "Facebook"] := by decide
    have hA : pyStr ((transform_totals sampleCompanies (pyLines sampleText) "Amazon").getD 0)
        = "150" := by decide
    have hP : pyStr ((transform_totals sampleCompanies (pyLines sampleText) "Apple").getD 0)
        = "20" := by decide
    have hF : pyStr ((transform_totals sampleCompanies (pyLines sampleText) "Facebook").getD 0)
        = "70" := by decide
    rw [transform_rows, hsk, List.map_cons, List.map_cons, List.map_cons, List.map_nil,
      hA, hP, hF]
  refine ⟨?_, by decide, by decide, by decide,
    fun c hc => transform_totals_none sampleCompanies _ c hc, ?_⟩
  · rw [hrun]; rfl
  · rw [hrun, hrows]
    show Except.ok (transformWrite sampleFS "out.csv" _ "out.csv") = _
    rw [transformWrite_out]

theorem aggregate_reference_input_witness :
    ((transform_data sampleFS "in.txt" "2025-12-10T17:00" sampleCompanies "out.csv").map
        (fun p => p.2)
      = .ok (transform_totals sampleCompanies (pyLines sampleText))
    ∧ transform_totals sampleCompanies (pyLines sampleText) "Amazon" = some 150
    ∧ transform_totals sampleCompanies (pyLines sampleText) "Apple" = some 20
    ∧ transform_totals sampleCompanies (pyLines sampleText) "Facebook" = some 70
    ∧ (∀ c, c ∉ sampleCompanies →
        transform_totals sampleCompanies (pyLines sampleText) c = none)
    ∧ (transform_data sampleFS "in.txt" "2025-12-10T17:00" sampleCompanies "out.csv").map
        (fun p => p.1 "out.csv")
      = .ok (some (.table [["company_name", "pageviews", "hour_timestamp"],
          ["Amazon", "150", "2025-12-10T17:00"], ["Apple", "20", "2025-12-10T17:00"],
          ["Facebook", "70", "2025-12-10T17:00"]]))) :=
  aggregate_reference_input "2025-12-10T17:00" (by decide)

/-- Parsing one artifact row `[c, str(v), hour]` against the standard
header recovers `(c, v, hour)`. -/
theorem parseRow_artifact (c hour : String) (v : Int) :
    parseRow ["company_name", "pageviews", "hour_timestamp"] [c, pyStr v, hour]
      = .ok (some c, v, some hour) := by
  have h1 : lookupCell ["company_name", "pageviews", "hour_timestamp"] [c, pyStr v, hour]
      "company_name" = .ok (some c) := rfl
  have h2 : lookupCell ["company_name", "pageviews", "hour_timestamp"] [c, pyStr v, hour]
      "pageviews" = .ok (some (pyStr v)) := rfl
  have h3 : lookupCell ["company_name", "pageviews", "hour_timestamp"] [c, pyStr v, hour]
      "hour_timestamp" = .ok (some hour) := rfl
  rw [parseRow, h1, h2, h3]
  simp only [pyInt?_pyStr]

theorem parseRowsList_artifact (hour : String) (v : String → Int) :
    ∀ ks : List String,
      parseRowsList ["company_name", "pageviews", "hour_timestamp"]
          (ks.map (fun c => [c, pyStr (v c), hour]))
        = .ok (ks.map (fun c => (some c, v c, some hour))) := by
  intro ks
  induction ks with
  | nil => rfl
  | cons c cs ih =>
      rw [List.map_cons, parseRowsList, parseRow_artifact, ih, List.map_cons]

/-- Claim C7: parsing the CSV artifact written by the Aggregator, exactly as
the Persister parses it, succeeds and yields — row for row, in the same
order — the rows the Persister then inserts: the sorted tracked entities
with their integer totals and the hour-key string. -/
theorem aggregate_persist_roundtrip (S : List String) (hour : String) (L : List String) :
    parseRows (transform_rows S hour L)
      = .ok ((sortedKeys S).map (fun c =>
          (some c, (transform_totals S L c).getD 0, some hour))) := by
  show parseRowsList _ _ = _
  exact parseRowsList_artifact hour (fun c => (transform_totals S L c).getD 0) (sortedKeys S)

theorem parseRowsList_length (header : List String) :
    ∀ (recs : List (List String)) (rows : List ParsedRow),
      parseRowsList header recs = .ok rows → rows.length = recs.length := by
  intro recs
  induction recs with
  | nil =>
      intro rows h
      simp only [parseRowsList] at h
      cases h
      rfl
  | cons r rest ih =>
      intro rows h
      rw [parseRowsList] at h
      split at h
      · simp at h
      · split at h
        · simp at h
        · rename_i prs hprs
          cases h
          simp only [List.length_cons]
          rw [ih prs hprs]

theorem insertRows_ok_append :
    ∀ (rs : List ParsedRow) (t t2 : Table),
      insertRows t rs = .ok t2 → t2 = t ++ rs.map normRow := by
  intro rs
  induction rs with
  | nil =>
      intro t t2 h
      simp only [insertRows] at h
      cases h
      simp
  | cons r rest ih =>
      intro t t2 h
      rw [insertRows] at h
      split at h
      · rename_i x1 x2 c0 h0 hc0 hh0
        split at h
        · simp at h
        · have ht := ih _ _ h
          rw [ht, List.map_cons]
          have hn : normRow r = (c0, r.2.1, h0) := by simp [normRow, hc0, hh0]
          rw [hn]
          simp
      · simp at h

theorem rowConflict_append (t : Table) (x : Row) (c h : String) :
    rowConflict (t ++ [x]) c h = (rowConflict t c h || (x.1 == c && x.2.2 == h)) := by
  simp [rowConflict, List.any_append]

theorem insertRows_ok_noConflict :
    ∀ (rs : List ParsedRow) (t t2 : Table), insertRows t rs = .ok t2 →
      ∀ r ∈ rs, ∀ c h, r.1 = some c → r.2.2 = some h → rowConflict t c h = false := by
  intro rs
  induction rs with
  | nil =>
      intro t t2 _ r hr
      simp at hr
  | cons r0 rest ih =>
      intro t t2 hins r hr c h hc hh
      rw [insertRows] at hins
      split at hins
      · rename_i x1 x2 c0 h0 hc0 hh0
        split at hins
        · simp at hins
        · rename_i hncf
          rcases List.mem_cons.mp hr with h1 | h1
          · subst h1
            rw [hc0] at hc
            rw [hh0] at hh
            cases hc
            cases hh
            simpa using hncf
          · have hmono := ih _ _ hins r h1 c h hc hh
            rw [rowConflict_append] at hmono
            exact (Bool.or_eq_false_iff.mp hmono).1
      · simp at hins

theorem insertRows_ok_nodup (hour : String) :
    ∀ (rs : List ParsedRow) (t t2 : Table), insertRows t rs = .ok t2 →
      (∀ r ∈ rs, r.2.2 = some hour) → (rs.map (fun r => r.1)).Nodup := by
  intro rs
  induction rs with
  | nil => intro t t2 _ _; simp
  | cons r0 rest ih =>
      intro t t2 hins hall
      rw [insertRows] at hins
      split at hins
      · rename_i x1 x2 c0 h0 hc0 hh0
        have hh0hour : h0 = hour := by
          have hr0 := hall r0 (List.mem_cons_self _ _)
          rw [hh0] at hr0
          cases hr0
          rfl
        split at hins
        · simp at hins
        · rename_i hncf
          simp only [List.map_cons, List.nodup_cons]
          constructor
          · simp only [hc0]
            intro hmem
            obtain ⟨r, hr, hr1⟩ := List.mem_map.mp hmem
            have hrh : r.2.2 = some hour := hall r (List.mem_cons_of_mem _ hr)
            have hcf := insertRows_ok_noConflict rest _ _ hins r hr c0 hour hr1 hrh
            rw [rowConflict_append] at hcf
            have hx := (Bool.or_eq_false_iff.mp hcf).2
            rw [hh0hour] at hx
            simp at hx
          · exact ih _ _ hins (fun r hr => hall r (List.mem_cons_of_mem _ hr))
      · simp at hins

theorem deleteHour_append (a b : Table) (hour : String) :
    deleteHour (a ++ b) hour = deleteHour a hour ++ deleteHour b hour :=
  List.filter_append _ _

theorem deleteHour_idem (t : Table) (hour : String) :
    deleteHour (deleteHour t hour) hour = deleteHour t hour := by
  simp [deleteHour, List.filter_filter]

theorem deleteHour_of_all (rs : Table) (hour : String) (h : ∀ r ∈ rs, r.2.2 = hour) :
    deleteHour rs hour = [] := by
  rw [deleteHour, List.filter_eq_nil_iff]
  intro r hr
  simp [h r hr]

theorem filter_hour_deleteHour (t : Table) (hour : String) :
    (deleteHour t hour).filter (fun r => r.2.2 == hour) = [] := by
  rw [deleteHour, List.filter_filter, List.filter_eq_nil_iff]
  intro r _
  by_cases h : r.2.2 = hour <;> simp [h]

theorem filter_hour_all (rs : Table) (hour : String) (h : ∀ r ∈ rs, r.2.2 = hour) :
    rs.filter (fun r => r.2.2 == hour) = rs := by
  rw [List.filter_eq_self]
  intro r hr
  simp [h r hr]

/-- Claim C1: persisting the same artifact for the same hour twice leaves the
database exactly as one run does and returns the same result; every
successful run returns the number of data rows of the artifact; and a
successful run that inserted anything leaves, among the rows of hour H,
exactly the artifact's parsed rows — one row per entity, values from the
latest load.  The hypothesis is the claim's premise that every data row
of the artifact carries the invoked hour key. -/
theorem persist_idempotent (csv : Csv) (hour tn : String) (db : DB)
    (hH : rowsCarryHour csv hour = true) :
    (load_data (some csv) hour tn (load_data (some csv) hour tn db).1).1
        = (load_data (some csv) hour tn db).1
    ∧ (load_data (some csv) hour tn (load_data (some csv) hour tn db).1).2
        = (load_data (some csv) hour tn db).2
    ∧ (∀ n, (load_data (some csv) hour tn db).2 = .ok n → n = csv.length - 1)
    ∧ (∀ n, (load_data (some csv) hour tn db).2 = .ok n → n ≠ 0 →
        ∃ t rows, (load_data (some csv) hour tn db).1 = some t
          ∧ parseRows csv = .ok rows
          ∧ t.filter (fun r => r.2.2 == hour) = rows.map normRow
          ∧ (rows.map (fun r => r.1)).Nodup) := by
  by_cases hh : hour = ""
  · simp [load_data, hh]
  · cases hps : parseRows csv with
    | error e =>
        simp [load_data, if_neg hh, hps]
    | ok rows =>
        have hlen : rows.length = csv.length - 1 := by
          cases csv with
          | nil =>
              simp only [parseRows] at hps
              cases hps
              rfl
          | cons hd recs =>
              simp only [parseRows] at hps
              simp [parseRowsList_length hd recs rows hps]
        have hall : ∀ r ∈ rows, r.2.2 = some hour := by
          intro r hr
          have hc := hH
          rw [rowsCarryHour, hps] at hc
          rw [List.all_eq_true] at hc
          have := hc r hr
          simpa using this
        by_cases hempty : rows.isEmpty
        · have hrun : load_data (some csv) hour tn db = (db, .ok 0) := by
            simp [load_data, if_neg hh, hps, hempty]
          refine ⟨by rw [hrun, hrun], by rw [hrun, hrun], ?_, ?_⟩
          · intro n hn
            rw [hrun] at hn
            cases hn
            rw [← hlen, List.isEmpty_iff.mp hempty]
            rfl
          · intro n hn hn0
            rw [hrun] at hn
            cases hn
            exact absurd rfl hn0
        · cases hins : insertRows (deleteHour (db.getD []) hour) rows with
          | error e =>
              have hrun : load_data (some csv) hour tn db = (db, .error e) := by
                simp [load_data, if_neg hh, hps, hempty, hins]
              refine ⟨by rw [hrun, hrun], by rw [hrun, hrun], ?_, ?_⟩
              · intro n hn; rw [hrun] at hn; cases hn
              · intro n hn; rw [hrun] at hn; cases hn
          | ok t2 =>
              have hrun : load_data (some csv) hour tn db = (some t2, .ok rows.length) := by
                simp [load_data, if_neg hh, hps, hempty, hins]
              have ht2 : t2 = deleteHour (db.getD []) hour ++ rows.map normRow :=
                insertRows_ok_append rows _ _ hins
              have hnormhour : ∀ r ∈ rows.map normRow, r.2.2 = hour := by
                intro r hr
                obtain ⟨x, hx, hxr⟩ := List.mem_map.mp hr
                have := hall x hx
                rw [← hxr]
                simp [normRow, this]
              have hdel2 : deleteHour t2 hour = deleteHour (db.getD []) hour := by
                rw [ht2, deleteHour_append, deleteHour_idem,
                  deleteHour_of_all _ _ hnormhour, List.append_nil]
              have hrun2 : load_data (some csv) hour tn (some t2)
                  = (some t2, .ok rows.length) := by
                simp only [load_data, if_neg hh, hps, hempty, Bool.false_eq_true, if_false]
                rw [Option.getD_some, hdel2, hins]
              refine ⟨?_, ?_, ?_, ?_⟩
              · rw [hrun]
                show (load_data (some csv) hour tn (some t2)).1 = some t2
                rw [hrun2]
              · rw [hrun]
                show (load_data (some csv) hour tn (some t2)).2 = .ok rows.length
                rw [hrun2]
              · intro n hn
                rw [hrun] at hn
                cases hn
                exact hlen
              · intro n hn _
                refine ⟨t2, rows, by rw [hrun], rfl, ?_, ?_⟩
                · rw [ht2, List.filter_append, filter_hour_deleteHour,
                    filter_hour_all _ _ hnormhour, List.nil_append]
                · exact insertRows_ok_nodup hour rows _ _ hins hall

theorem persist_idempotent_witness :
    ((load_data (some goodCsv) "2025-12-10T17:00:00+00:00" "pageviews_hourly"
        (load_data (some goodCsv) "2025-12-10T17:00:00+00:00" "pageviews_hourly" none).1).1
      = (load_data (some goodCsv) "2025-12-10T17:00:00+00:00" "pageviews_hourly" none).1
    ∧ (load_data (some goodCsv) "2025-12-10T17:00:00+00:00" "pageviews_hourly"
        (load_data (some goodCsv) "2025-12-10T17:00:00+00:00" "pageviews_hourly" none).1).2
      = (load_data (some goodCsv) "2025-12-10T17:00:00+00:00" "pageviews_hourly" none).2
    ∧ (∀ n, (load_data (some goodCsv) "2025-12-10T17:00:00+00:00" "pageviews_hourly" none).2
          = .ok n → n = goodCsv.length - 1)
    ∧ (∀ n, (load_data (some goodCsv) "2025-12-10T17:00:00+00:00" "pageviews_hourly" none).2
          = .ok n → n ≠ 0 →
        ∃ t rows,
          (load_data (some goodCsv) "2025-12-10T17:00:00+00:00" "pageviews_hourly" none).1
              = some t
          ∧ parseRows goodCsv = .ok rows
          ∧ t.filter (fun r => r.2.2 == "2025-12-10T17:00:00+00:00") = rows.map normRow
          ∧ (rows.map (fun r => r.1)).Nodup)) :=
  persist_idempotent goodCsv "2025-12-10T17:00:00+00:00" "pageviews_hourly" none (by decide)

/-- Reading one record of length ≥ 2 against the standard header: any
failure is the `ValueError` of `int()` on the pageviews cell. -/
theorem parseRow_std (r : List String) (h2 : 2 ≤ r.length) :
    parseRow ["company_name", "pageviews", "hour_timestamp"] r
      = match pyInt? (r.getD 1 "") with
        | none => .error .valueError
        | some v => .ok (r[0]?, v, r[2]?) := by
  have h0l : 0 < r.length := by omega
  have h1l : 1 < r.length := by omega
  have hc : lookupCell ["company_name", "pageviews", "hour_timestamp"] r "company_name"
      = .ok r[0]? := rfl
  have hp : lookupCell ["company_name", "pageviews", "hour_timestamp"] r "pageviews"
      = .ok r[1]? := rfl
  have hht : lookupCell ["company_name", "pageviews", "hour_timestamp"] r "hour_timestamp"
      = .ok r[2]? := rfl
  have h1v : r[1]? = some (r.getD 1 "") := by
    rw [List.getD_eq_getElem?_getD, List.getElem?_eq_getElem h1l]
    rfl
  rw [parseRow, hc, hp, hht, h1v]

theorem parseRowsList_badcell :
    ∀ recs : List (List String), (∀ r ∈ recs, 2 ≤ r.length) →
      (∃ r ∈ recs, pyInt? (r.getD 1 "") = none) →
      parseRowsList ["company_name", "pageviews", "hour_timestamp"] recs
        = .error .valueError := by
  intro recs
  induction recs with
  | nil =>
      intro _ hbad
      simp at hbad
  | cons r rest ih =>
      intro hlen hbad
      have hr2 : 2 ≤ r.length := hlen r (List.mem_cons_self _ _)
      rw [parseRowsList, parseRow_std r hr2]
      cases hp : pyInt? (r.getD 1 "") with
      | none => rfl
      | some v =>
          obtain ⟨rb, hrb, hrbbad⟩ := hbad
          rcases List.mem_cons.mp hrb with h1 | h1
          · subst h1
            rw [hp] at hrbbad
            cases hrbbad
          · rw [ih (fun x hx => hlen x (List.mem_cons_of_mem _ hx)) ⟨rb, h1, hrbbad⟩]

/-- Claim C10 (implicit): a CSV artifact whose data rows all have their cells
but where some pageviews cell is not a valid integer makes `load_data`
raise `ValueError` during the parse phase — before any database
connection is opened — leaving the database untouched; the malformed row
is not skipped. -/
theorem persist_malformed_fatal (recs : List (List String)) (hour tn : String) (db : DB)
    (hhour : hour ≠ "")
    (hlen : ∀ r ∈ recs, 2 ≤ r.length)
    (hbad : ∃ r ∈ recs, pyInt? (r.getD 1 "") = none) :
    load_data (some (["company_name", "pageviews", "hour_timestamp"] :: recs)) hour tn db
      = (db, .error .valueError) := by
  have hparse : parseRows (["company_name", "pageviews", "hour_timestamp"] :: recs)
      = .error .valueError := by
    simp only [parseRows]
    exact parseRowsList_badcell recs hlen hbad
  simp [load_data, if_neg hhour, hparse]

theorem persist_malformed_witness :
    badCellCsv = ["company_name", "pageviews", "hour_timestamp"]
        :: [["Amazon", "abc", "2025-12-10T17:00:00+00:00"]]
    ∧ load_data (some badCellCsv) "2025-12-10T17:00:00+00:00" "pageviews_hourly"
        (some [("Apple", 7, "2025-12-10T16:00:00+00:00")])
      = (some [("Apple", 7, "2025-12-10T16:00:00+00:00")], .error .valueError) :=
  ⟨rfl, persist_malformed_fatal [["Amazon", "abc", "2025-12-10T17:00:00+00:00"]]
    "2025-12-10T17:00:00+00:00" "pageviews_hourly"
    (some [("Apple", 7, "2025-12-10T16:00:00+00:00")])
    (by decide) (by decide) ⟨["Amazon", "abc", "2025-12-10T17:00:00+00:00"],
      List.mem_cons_self _ _, by decide⟩⟩
